import Mathlib

/-!
Verification development for the incremental embedding pipeline and
shadow-workspace subsystems of the swati-lite editor.

The definitions below are a shallow embedding of the relevant source
functions.  External collaborators (the Chroma vector database, the
langchain text splitter, Node's `path` and `fs` modules, chokidar) are
modelled by explicit pure state: the vector store is a list of chunk
entries, the language-aware splitter's output is passed in as the list
of chunks it produced for the current file content, and the filesystem
of the shadow tree is a list of path/content pairs.
-/

namespace SwatiLite

/-- File change kinds, from `FileChangeType` in `fileWatcher.ts`
(ADDED = 1, DELETED = 2, UPDATED = 3). -/
inductive FileChangeType where
  | added
  | deleted
  | updated
deriving DecidableEq, Repr

/-- A normalized file change record, from `FileChange` in `fileWatcher.ts`. -/
structure FileChange where
  type : FileChangeType
  path : String
deriving DecidableEq, Repr

/-! ## Vector store model (`ragService`, `src/unnamed/part_007`)

The Chroma collection is modelled as a list of chunk entries.  An entry
carries the chunk id, the metadata fields the pipeline filters on
(`source`, `userId`), and the chunk text (`document`).  The `language`
and `timestamp` metadata fields play no role in any query or diffing
decision in the source, so they are not tracked. -/

/-- One stored chunk: id, `source`/`userId` metadata, and document text. -/
structure ChunkEntry where
  id : String
  source : String
  userId : String
  doc : String
deriving DecidableEq, Repr

/-- The vector store contents, in insertion order. -/
abbrev Store := List ChunkEntry

/-- A mutating call made against the collection (`collection.add` /
`collection.delete`), recorded so that theorems can count store calls. -/
inductive StoreOp where
  | add (entries : List ChunkEntry)
  | delete (ids : List String)
deriving DecidableEq, Repr

/-- `collection.add({ids, metadatas, documents})`: appends entries. -/
def collectionAdd (s : Store) (es : List ChunkEntry) : Store :=
  s ++ es

/-- `collection.delete({ids})`: removes every entry whose id is listed. -/
def collectionDelete (s : Store) (ids : List String) : Store :=
  s.filter (fun e => !(ids.contains e.id))

/-- `collection.query` with the conjunctive filter
`{$and: [{userId}, {source}]}` and an empty query text: returns the
entries matching both metadata fields, in store order. -/
def queryFile (s : Store) (userId source : String) : List ChunkEntry :=
  s.filter (fun e => e.userId == userId && e.source == source)

/-- Model of Node's `path.basename`: the path component after the last
separator. -/
def lastComponentAux : List Char → List Char → List Char
  | [], acc => acc
  | c :: rest, acc =>
      if c = '/' then lastComponentAux rest []
      else lastComponentAux rest (acc ++ [c])

/-- `path.basename(filePath)` for slash-separated paths. -/
def basename (p : String) : String :=
  ⟨lastComponentAux p.data []⟩

/-- The deterministic chunk id scheme of `embedFile` /
`updateChangedChunks`: `` `${path.basename(filePath)}-chunk-${i}` ``. -/
def chunkId (b : String) (i : Nat) : String :=
  b ++ "-chunk-" ++ toString i

/-- `chunks.map((_, i) => ...)` over the id scheme. -/
def chunkIds (b : String) (n : Nat) : List String :=
  (List.range n).map (chunkId b)

/-- The entries `embedFile` builds for a file: positional ids from the
basename, metadata `{source: filePath, userId}`, documents the chunks. -/
def mkEntries (filePath userId : String) (chunks : List String) : List ChunkEntry :=
  chunks.enum.map (fun ic => ⟨chunkId (basename filePath) ic.1, filePath, userId, ic.2⟩)

/-- Result object returned by the rag-service operations. -/
structure RagResult where
  success : Bool
  message : String
deriving DecidableEq, Repr

/-- `embedFile({filePath, language, userId})` from `part_007`: split the
file content (the split is the `chunks` argument here), build positional
ids and metadata, and add all chunks to the collection. -/
def embedFile (s : Store) (filePath userId : String) (chunks : List String) :
    Store × List StoreOp × RagResult :=
  let es := mkEntries filePath userId chunks
  (collectionAdd s es, [StoreOp.add es],
   ⟨true, "Successfully processed " ++ filePath ++ " and added " ++
          toString chunks.length ++ " chunks to vector store"⟩)

/-- `checkFileExists({filePath, userId})` from `part_007`: query with the
`{$and: [{userId}, {source}]}` filter and report whether any chunk id
came back. -/
def checkFileExists (s : Store) (userId filePath : String) : Bool :=
  !(queryFile s userId filePath).isEmpty

/-- `deleteFileEmbeddings({filePath, userId})` from `part_007`: query the
ids of the file's chunks and delete them; no-op when none exist. -/
def deleteFileEmbeddings (s : Store) (userId filePath : String) :
    Store × List StoreOp × RagResult :=
  let prev := queryFile s userId filePath
  if prev.isEmpty then
    (s, [], ⟨true, "No chunks found for " ++ filePath⟩)
  else
    (collectionDelete s (prev.map (·.id)), [StoreOp.delete (prev.map (·.id))],
     ⟨true, "Successfully deleted " ++ toString prev.length ++ " chunks for " ++ filePath⟩)

/-- The changed-position scan of `updateChangedChunks`: the indices `i`
with `currentChunks[i] !== previousDocs[i]`. -/
def changedIndices (cur prevDocs : List String) : List Nat :=
  (List.range cur.length).filter (fun i => cur.getD i "" != prevDocs.getD i "")

/-- `updateChangedChunks({filePath, language, userId})` from `part_007`.
`curChunks` is the splitter's output on the current file content.
Branches, in source order: no previous chunks → embed whole file;
chunk count changed → delete all then re-embed; nothing changed → no
store mutation; more than 50% changed → delete all then re-embed;
otherwise delete exactly the changed ids and add the replacement
chunks at the same positional ids. -/
def updateChangedChunks (s : Store) (filePath userId : String) (curChunks : List String) :
    Store × List StoreOp × RagResult :=
  let currentIds := chunkIds (basename filePath) curChunks.length
  let prev := queryFile s userId filePath
  if prev.isEmpty then
    embedFile s filePath userId curChunks
  else if prev.length ≠ curChunks.length then
    let d := deleteFileEmbeddings s userId filePath
    let e := embedFile d.1 filePath userId curChunks
    (e.1, d.2.1 ++ e.2.1, e.2.2)
  else
    let changed := changedIndices curChunks (prev.map (·.doc))
    if changed.isEmpty then
      (s, [], ⟨true, "No changes detected in chunks for " ++ filePath⟩)
    else if curChunks.length < 2 * changed.length then
      let d := deleteFileEmbeddings s userId filePath
      let e := embedFile d.1 filePath userId curChunks
      (e.1, d.2.1 ++ e.2.1, e.2.2)
    else
      let idsToDelete := changed.map (fun i => (prev.map (·.id)).getD i "")
      let changedEntries := changed.map
        (fun i => ChunkEntry.mk (currentIds.getD i "") filePath userId (curChunks.getD i ""))
      (collectionAdd (collectionDelete s idsToDelete) changedEntries,
       [StoreOp.delete idsToDelete, StoreOp.add changedEntries],
       ⟨true, "Successfully updated " ++ toString changed.length ++
              " chunks for " ++ filePath⟩)

/-- `handleFileChange({filePath, changeType, userId})` from `part_007`:
dispatch on the change type. -/
def handleFileChange (s : Store) (filePath userId : String)
    (changeType : FileChangeType) (chunks : List String) :
    Store × List StoreOp × RagResult :=
  match changeType with
  | .added => embedFile s filePath userId chunks
  | .updated => updateChangedChunks s filePath userId chunks
  | .deleted => deleteFileEmbeddings s userId filePath

/-- The `rag:indexFile` IPC handler from `src/unnamed/part_005`: check
existence first; if indexed, report "File already indexed" without
touching the store, else run the Added path. -/
def indexFile (s : Store) (filePath userId : String) (chunks : List String) :
    Store × List StoreOp × RagResult :=
  if checkFileExists s userId filePath then
    (s, [], ⟨true, "File already indexed"⟩)
  else
    handleFileChange s filePath userId .added chunks

end SwatiLite

namespace SwatiLite

/-! ## Shared lemmas about the vector-store model -/

theorem queryFile_append (s t : Store) (u f : String) :
    queryFile (s ++ t) u f = queryFile s u f ++ queryFile t u f :=
  List.filter_append _ _

theorem queryFile_mkEntries (p u : String) (chunks : List String) :
    queryFile (mkEntries p u chunks) u p = mkEntries p u chunks := by
  rw [queryFile, List.filter_eq_self]
  intro e he
  rw [mkEntries, List.mem_map] at he
  obtain ⟨ic, _, rfl⟩ := he
  simp

theorem mkEntries_length (p u : String) (chunks : List String) :
    (mkEntries p u chunks).length = chunks.length := by
  rw [mkEntries, List.length_map, List.enum_length]

theorem mkEntries_ids (p u : String) (chunks : List String) :
    (mkEntries p u chunks).map (·.id) = chunkIds (basename p) chunks.length := by
  rw [mkEntries, chunkIds, List.map_map, ← List.enum_map_fst chunks, List.map_map]
  rfl

theorem chunkIds_length (b : String) (n : Nat) : (chunkIds b n).length = n := by
  rw [chunkIds, List.length_map, List.length_range]

theorem chunkIds_getD (b : String) (n i : Nat) (h : i < n) :
    (chunkIds b n).getD i "" = chunkId b i := by
  rw [List.getD_eq_getElem _ _ (by rw [chunkIds_length]; exact h)]
  simp [chunkIds]

/-! ## Claim C2 — Deleted changes remove every matching chunk -/

/-- C2: processing a Deleted change removes every chunk whose metadata
matches `{userId, source: path}` from the vector store, for every file
path and every store contents, regardless of how many chunks the file
has. -/
theorem deleted_removes_all_matching (s : Store) (userId filePath : String)
    (chunks : List String) :
    queryFile (handleFileChange s filePath userId .deleted chunks).1 userId filePath = [] := by
  show queryFile (deleteFileEmbeddings s userId filePath).1 userId filePath = []
  unfold deleteFileEmbeddings
  by_cases h : (queryFile s userId filePath).isEmpty
  · rw [List.isEmpty_iff] at h
    simp [h]
  · simp only [h, Bool.false_eq_true, if_false]
    rw [List.eq_nil_iff_forall_not_mem]
    intro e he
    rw [queryFile, List.mem_filter] at he
    obtain ⟨he1, hpred⟩ := he
    rw [collectionDelete, List.mem_filter] at he1
    obtain ⟨hes, hnotdel⟩ := he1
    have hmem : e ∈ queryFile s userId filePath := by
      rw [queryFile, List.mem_filter]; exact ⟨hes, hpred⟩
    simp at hnotdel
    exact hnotdel e hmem rfl

/-! ## Claim C7 — indexFile is idempotent -/

/-- C7: indexing a not-yet-indexed file performs the embedding add call
once; a second call on the unmodified file makes no store call, leaves
the store unchanged, and reports "File already indexed". -/
theorem indexFile_idempotent (s : Store) (p u : String) (chunks : List String)
    (hnew : checkFileExists s u p = false) (hne : chunks ≠ []) :
    (indexFile s p u chunks).2.1 = [StoreOp.add (mkEntries p u chunks)] ∧
    (indexFile (indexFile s p u chunks).1 p u chunks).1 = (indexFile s p u chunks).1 ∧
    (indexFile (indexFile s p u chunks).1 p u chunks).2.1 = [] ∧
    (indexFile (indexFile s p u chunks).1 p u chunks).2.2 =
      ⟨true, "File already indexed"⟩ := by
  have h1 : indexFile s p u chunks =
      (collectionAdd s (mkEntries p u chunks), [StoreOp.add (mkEntries p u chunks)],
       ⟨true, "Successfully processed " ++ p ++ " and added " ++
              toString chunks.length ++ " chunks to vector store"⟩) := by
    rw [indexFile, hnew]
    rfl
  have hexists : checkFileExists (indexFile s p u chunks).1 u p = true := by
    rw [h1]
    show checkFileExists (s ++ mkEntries p u chunks) u p = true
    rw [checkFileExists]
    rw [queryFile_append, queryFile_mkEntries]
    have : mkEntries p u chunks ≠ [] := by
      intro hcon
      have := mkEntries_length p u chunks
      rw [hcon] at this
      exact hne (List.eq_nil_of_length_eq_zero this.symm)
    simp [List.isEmpty_iff, this]
  refine ⟨by rw [h1], ?_, ?_, ?_⟩ <;> rw [indexFile, hexists] <;> simp

/-- C7 witness: the theorem applied to a concrete one-chunk file against
an empty store. -/
theorem indexFile_idempotent_witness :
    checkFileExists [] "u1" "/w/f.ts" = false ∧ (["hello"] : List String) ≠ [] ∧
    ((indexFile [] "/w/f.ts" "u1" ["hello"]).2.1 =
       [StoreOp.add (mkEntries "/w/f.ts" "u1" ["hello"])] ∧
     (indexFile (indexFile [] "/w/f.ts" "u1" ["hello"]).1 "/w/f.ts" "u1" ["hello"]).1 =
       (indexFile [] "/w/f.ts" "u1" ["hello"]).1 ∧
     (indexFile (indexFile [] "/w/f.ts" "u1" ["hello"]).1 "/w/f.ts" "u1" ["hello"]).2.1 = [] ∧
     (indexFile (indexFile [] "/w/f.ts" "u1" ["hello"]).1 "/w/f.ts" "u1" ["hello"]).2.2 =
       ⟨true, "File already indexed"⟩) :=
  ⟨by decide, by decide,
   indexFile_idempotent [] "/w/f.ts" "u1" ["hello"] (by decide) (by decide)⟩

end SwatiLite

namespace SwatiLite

/-! ## Claim C10 — chunk ids depend only on basename and index -/

/-- C10: the chunk ids `embedFile` assigns depend only on the file's
basename and the chunk index: two distinct paths with the same basename
and the same chunk count get identical id sequences, and embedding both
files puts entries with colliding ids but different sources into the
store. -/
theorem embedFile_ids_collide (s : Store) (p1 p2 u1 u2 : String)
    (c1 c2 : List String)
    (hbase : basename p1 = basename p2) (hlen : c1.length = c2.length)
    (hp : p1 ≠ p2) (hne : c1 ≠ []) :
    (mkEntries p1 u1 c1).map (·.id) = (mkEntries p2 u2 c2).map (·.id) ∧
    (∃ e1 e2,
        e1 ∈ (embedFile (embedFile s p1 u1 c1).1 p2 u2 c2).1 ∧
        e2 ∈ (embedFile (embedFile s p1 u1 c1).1 p2 u2 c2).1 ∧
        e1.id = e2.id ∧ e1.source ≠ e2.source) := by
  constructor
  · rw [mkEntries_ids, mkEntries_ids, hbase, hlen]
  · obtain ⟨h1, t1, rfl⟩ := List.exists_cons_of_ne_nil hne
    obtain ⟨h2, t2, rfl⟩ : ∃ h2 t2, c2 = h2 :: t2 := by
      cases c2 with
      | nil => simp at hlen
      | cons h2 t2 => exact ⟨h2, t2, rfl⟩
    refine ⟨⟨chunkId (basename p1) 0, p1, u1, h1⟩,
            ⟨chunkId (basename p2) 0, p2, u2, h2⟩, ?_, ?_, by simp [hbase], by simpa⟩
    · show _ ∈ collectionAdd (collectionAdd s (mkEntries p1 u1 (h1 :: t1)))
              (mkEntries p2 u2 (h2 :: t2))
      rw [collectionAdd, collectionAdd]
      refine List.mem_append_left _ (List.mem_append_right _ ?_)
      rw [mkEntries]
      exact List.mem_map.mpr ⟨(0, h1), by simp [List.enum_cons], rfl⟩
    · show _ ∈ collectionAdd (collectionAdd s (mkEntries p1 u1 (h1 :: t1)))
              (mkEntries p2 u2 (h2 :: t2))
      rw [collectionAdd]
      refine List.mem_append_right _ ?_
      rw [mkEntries]
      exact List.mem_map.mpr ⟨(0, h2), by simp [List.enum_cons], rfl⟩

/-- C10 witness: two one-chunk files `/a/f.ts` and `/b/f.ts` share the
basename `f.ts`, so embedding both into an empty store collides. -/
theorem embedFile_ids_collide_witness :
    basename "/a/f.ts" = basename "/b/f.ts" ∧
    (["x"] : List String).length = (["y"] : List String).length ∧
    ("/a/f.ts" : String) ≠ "/b/f.ts" ∧ (["x"] : List String) ≠ [] ∧
    ((mkEntries "/a/f.ts" "u1" ["x"]).map (·.id) =
       (mkEntries "/b/f.ts" "u1" ["y"]).map (·.id) ∧
     (∃ e1 e2,
        e1 ∈ (embedFile (embedFile [] "/a/f.ts" "u1" ["x"]).1 "/b/f.ts" "u1" ["y"]).1 ∧
        e2 ∈ (embedFile (embedFile [] "/a/f.ts" "u1" ["x"]).1 "/b/f.ts" "u1" ["y"]).1 ∧
        e1.id = e2.id ∧ e1.source ≠ e2.source)) :=
  ⟨by decide, by decide, by decide, by decide,
   embedFile_ids_collide [] "/a/f.ts" "/b/f.ts" "u1" "u1" ["x"] ["y"]
     (by decide) (by decide) (by decide) (by decide)⟩

end SwatiLite

namespace SwatiLite

/-! ## Claim C1 — smart update replaces exactly the changed chunks -/

/-- C1: when the re-split chunk sequence has the same length as the
stored sequence (whose ids are the positional ids produced by
`embedFile`) and at most 50% of positions differ, `updateChangedChunks`
makes exactly one delete call naming the changed positions' old ids and
one add call with the new chunks at the same positional ids, and every
chunk at an unchanged position stays in the store. -/
theorem smart_update_replaces_only_changed (s : Store) (p u : String)
    (cur : List String) (prev : List ChunkEntry) (changed : List Nat)
    (hprev : queryFile s u p = prev)
    (hch : changedIndices cur (prev.map (·.doc)) = changed)
    (hids : prev.map (·.id) = chunkIds (basename p) prev.length)
    (hnodup : (prev.map (·.id)).Nodup)
    (hlen : prev.length = cur.length)
    (hne : changed ≠ [])
    (hhalf : 2 * changed.length ≤ cur.length) :
    (updateChangedChunks s p u cur).2.1 =
      [StoreOp.delete (changed.map (chunkId (basename p))),
       StoreOp.add (changed.map (fun i =>
         ChunkEntry.mk (chunkId (basename p) i) p u (cur.getD i "")))] ∧
    (∀ i (h : i < prev.length), i ∉ changed →
        prev.get ⟨i, h⟩ ∈ (updateChangedChunks s p u cur).1) ∧
    (∀ i ∈ changed,
        ChunkEntry.mk (chunkId (basename p) i) p u (cur.getD i "") ∈
          (updateChangedChunks s p u cur).1) := by
  -- every changed index is below the length of the current chunk list
  have hmemlt : ∀ i ∈ changed, i < cur.length := by
    intro i hi
    rw [← hch, changedIndices] at hi
    exact List.mem_range.mp (List.mem_filter.mp hi).1
  have hprevne : ¬ prev.isEmpty := by
    obtain ⟨i, hi⟩ := List.exists_mem_of_ne_nil changed hne
    have := hmemlt i hi
    rw [List.isEmpty_iff]
    intro hcon
    rw [hcon] at hlen
    simp at hlen
    omega
  -- navigate to the incremental branch of updateChangedChunks
  have hbranch : updateChangedChunks s p u cur =
      (collectionAdd
         (collectionDelete s (changed.map (fun i => (prev.map (·.id)).getD i "")))
         (changed.map (fun i =>
           ChunkEntry.mk ((chunkIds (basename p) cur.length).getD i "") p u (cur.getD i ""))),
       [StoreOp.delete (changed.map (fun i => (prev.map (·.id)).getD i "")),
        StoreOp.add (changed.map (fun i =>
          ChunkEntry.mk ((chunkIds (basename p) cur.length).getD i "") p u (cur.getD i "")))],
       ⟨true, "Successfully updated " ++ toString changed.length ++
              " chunks for " ++ p⟩) := by
    rw [updateChangedChunks, hprev, hch]
    simp only [hprevne, Bool.false_eq_true, if_false, hlen, ne_eq, not_true_eq_false,
      List.isEmpty_iff, hne, if_false, Nat.not_lt.mpr hhalf]
  -- the recorded ids to delete are the positional chunk ids of the changed indices
  have hdel : changed.map (fun i => (prev.map (·.id)).getD i "") =
      changed.map (chunkId (basename p)) := by
    apply List.map_congr_left
    intro i hi
    rw [hids, chunkIds_getD _ _ _ (by rw [hlen]; exact hmemlt i hi)]
  have hadd : (changed.map (fun i =>
      ChunkEntry.mk ((chunkIds (basename p) cur.length).getD i "") p u (cur.getD i ""))) =
      changed.map (fun i => ChunkEntry.mk (chunkId (basename p) i) p u (cur.getD i "")) := by
    apply List.map_congr_left
    intro i hi
    rw [chunkIds_getD _ _ _ (hmemlt i hi)]
  refine ⟨by rw [hbranch, hdel, hadd], ?_, ?_⟩
  · -- unchanged chunks stay in the store untouched
    intro i h hout
    rw [hbranch]
    show _ ∈ collectionAdd (collectionDelete _ _) _
    rw [collectionAdd]
    apply List.mem_append_left
    rw [collectionDelete, List.mem_filter]
    have hmemprev : prev.get ⟨i, h⟩ ∈ prev := List.get_mem _ _ _
    have hmemq : prev.get ⟨i, h⟩ ∈ queryFile s u p := by rw [hprev]; exact hmemprev
    have hmems : prev.get ⟨i, h⟩ ∈ s := List.mem_of_mem_filter hmemq
    refine ⟨hmems, ?_⟩
    rw [hdel]
    have hnotin : (prev.get ⟨i, h⟩).id ∉ changed.map (chunkId (basename p)) := by
      rw [List.mem_map]
      rintro ⟨j, hj, hji⟩
      have hjlt : j < prev.length := by rw [hlen]; exact hmemlt j hj
      have hgi : (prev.map (·.id)).get ⟨i, by simpa using h⟩ = (prev.get ⟨i, h⟩).id := by
        simp
      have hgj : (prev.map (·.id)).get ⟨j, by simpa using hjlt⟩ = chunkId (basename p) j := by
        rw [List.get_of_eq hids ⟨j, by simpa using hjlt⟩]
        simp [chunkIds]
      have heq : (prev.map (·.id)).get ⟨j, by simpa using hjlt⟩ =
          (prev.map (·.id)).get ⟨i, by simpa using h⟩ := by
        rw [hgj, hgi, hji]
      have hinj := List.nodup_iff_injective_get.mp hnodup heq
      have hj_eq : j = i := by simpa using hinj
      exact hout (hj_eq ▸ hj)
    simpa using hnotin
  · -- the replacement chunks land in the store at their positional ids
    intro i hi
    rw [hbranch]
    show _ ∈ collectionAdd (collectionDelete _ _) _
    rw [collectionAdd, hadd]
    apply List.mem_append_right
    exact List.mem_map.mpr ⟨i, hi, rfl⟩

/-- C1 witness: stored chunks [A,B,C] of `/proj/f.ts`, re-split to
[A,B2,C] — only position 1 changed, so exactly one delete of
`f.ts-chunk-1` and one add at the same id occur. -/
theorem smart_update_replaces_only_changed_witness :
    queryFile (mkEntries "/proj/f.ts" "u1" ["A", "B", "C"]) "u1" "/proj/f.ts" =
      mkEntries "/proj/f.ts" "u1" ["A", "B", "C"] ∧
    changedIndices ["A", "B2", "C"]
      ((mkEntries "/proj/f.ts" "u1" ["A", "B", "C"]).map (·.doc)) = [1] ∧
    (mkEntries "/proj/f.ts" "u1" ["A", "B", "C"]).map (·.id) =
      chunkIds (basename "/proj/f.ts") (mkEntries "/proj/f.ts" "u1" ["A", "B", "C"]).length ∧
    ((mkEntries "/proj/f.ts" "u1" ["A", "B", "C"]).map (·.id)).Nodup ∧
    (mkEntries "/proj/f.ts" "u1" ["A", "B", "C"]).length = (["A", "B2", "C"] : List String).length ∧
    ([1] : List Nat) ≠ [] ∧
    2 * ([1] : List Nat).length ≤ (["A", "B2", "C"] : List String).length ∧
    ((updateChangedChunks (mkEntries "/proj/f.ts" "u1" ["A", "B", "C"])
        "/proj/f.ts" "u1" ["A", "B2", "C"]).2.1 =
      [StoreOp.delete ([1].map (chunkId (basename "/proj/f.ts"))),
       StoreOp.add ([1].map (fun i =>
         ChunkEntry.mk (chunkId (basename "/proj/f.ts") i) "/proj/f.ts" "u1"
           ((["A", "B2", "C"] : List String).getD i "")))] ∧
     (∀ i (h : i < (mkEntries "/proj/f.ts" "u1" ["A", "B", "C"]).length), i ∉ ([1] : List Nat) →
        (mkEntries "/proj/f.ts" "u1" ["A", "B", "C"]).get ⟨i, h⟩ ∈
          (updateChangedChunks (mkEntries "/proj/f.ts" "u1" ["A", "B", "C"])
            "/proj/f.ts" "u1" ["A", "B2", "C"]).1) ∧
     (∀ i ∈ ([1] : List Nat),
        ChunkEntry.mk (chunkId (basename "/proj/f.ts") i) "/proj/f.ts" "u1"
            ((["A", "B2", "C"] : List String).getD i "") ∈
          (updateChangedChunks (mkEntries "/proj/f.ts" "u1" ["A", "B", "C"])
            "/proj/f.ts" "u1" ["A", "B2", "C"]).1)) :=
  ⟨by decide, by decide, by decide, by decide, by decide, by decide, by decide,
   smart_update_replaces_only_changed (mkEntries "/proj/f.ts" "u1" ["A", "B", "C"])
     "/proj/f.ts" "u1" ["A", "B2", "C"] (mkEntries "/proj/f.ts" "u1" ["A", "B", "C"]) [1]
     (by decide) (by decide) (by decide) (by decide) (by decide) (by decide) (by decide)⟩

end SwatiLite

namespace SwatiLite

/-! ## Claim C3 — debounce layer of FileWatcherEmbeddingService

The `debounce` helper in `services.ts` creates ONE `timeout` variable in
its closure; `debouncedHandleFileChangeEvent` is a single debounced
function shared by every path.  A call clears whatever timeout is
pending — whatever path it was for — and schedules a new one capturing
only the newest arguments. -/

/-- The shared `timeout` variable of the `debounce` closure: `none` when
no timeout is scheduled, `some c` when a timeout capturing arguments `c`
is pending. -/
abbrev DebounceState := Option FileChange

/-- One call of the debounced function (`services.ts` lines 59-68):
`clearTimeout` on the pending timeout, if any, then `setTimeout`
capturing the new arguments.  The old captured arguments are discarded
regardless of their path. -/
def debounceCall (_old : DebounceState) (c : FileChange) : DebounceState :=
  some c

/-- Expiry of the pending timeout: runs `func(...args)` on the captured
arguments and resets `timeout` to null. -/
def debounceFire (st : DebounceState) : DebounceState × Option FileChange :=
  match st with
  | none => (none, none)
  | some c => (none, some c)

/-- The changes handed to `processPendingChange` when a rapid burst of
events — each arriving before the previously scheduled timeout expires —
is followed by a quiet debounce interval: every arrival goes through
`debounceCall`, and the one eventual expiry fires. -/
def burstProcess (events : List FileChange) : List FileChange :=
  match (debounceFire (events.foldl debounceCall none)).2 with
  | none => []
  | some c => [c]

theorem foldl_debounceCall (st : DebounceState) (events : List FileChange)
    (h : events ≠ []) :
    events.foldl debounceCall st = some (events.getLast h) := by
  induction events generalizing st with
  | nil => exact absurd rfl h
  | cons a t ih =>
    cases t with
    | nil => simp [debounceCall, List.getLast]
    | cons b t2 =>
      rw [List.foldl_cons, ih (debounceCall st a) (by simp)]
      conv_rhs => rw [List.getLast_cons (by simp : (b :: t2 : List FileChange) ≠ [])]

/-- C3 counterexample: an update to `/w/a.ts` immediately followed by an
update to `/w/b.ts` inside the debounce window results in processing for
`/w/b.ts` only — the other path's event discards `/w/a.ts`'s pending
processing, so debouncing is not per path. -/
theorem debounce_shared_timer_counterexample :
    burstProcess [⟨.updated, "/w/a.ts"⟩, ⟨.updated, "/w/b.ts"⟩] =
      [⟨.updated, "/w/b.ts"⟩] ∧
    (∀ c ∈ burstProcess [⟨.updated, "/w/a.ts"⟩, ⟨.updated, "/w/b.ts"⟩],
      c.path ≠ "/w/a.ts") := by
  decide

/-- C3 amended: the debounce timer is a single timer shared by all
paths; any new event — for any path — resets it and replaces the
captured arguments, so a rapid burst of N events produces exactly one
processing action, for the last event of the burst only, and all
earlier events of the burst (whatever their paths) are discarded. -/
theorem debounce_global_last_event (events : List FileChange) (h : events ≠ []) :
    burstProcess events = [events.getLast h] := by
  rw [burstProcess, foldl_debounceCall none events h]
  rfl

/-- C3 witness: the amended theorem applied to the two-event burst. -/
theorem debounce_global_last_event_witness :
    ([⟨.updated, "/w/a.ts"⟩, ⟨.updated, "/w/b.ts"⟩] : List FileChange) ≠ [] ∧
    burstProcess [⟨.updated, "/w/a.ts"⟩, ⟨.updated, "/w/b.ts"⟩] =
      [⟨.updated, "/w/b.ts"⟩] :=
  ⟨by decide,
   (debounce_global_last_event [⟨.updated, "/w/a.ts"⟩, ⟨.updated, "/w/b.ts"⟩]
      (by decide)).trans (by decide)⟩

end SwatiLite

namespace SwatiLite

/-! ## Claim C4 — concurrency bound of FileWatcherEmbeddingService

State model of the rate limiter in `services.ts`: `pendingChanges` is
an insertion-ordered map from path to latest change type, and
`activeEmbeddings` counts in-flight `processFileChange` invocations.
A step is the synchronous code run between two suspension points
(`await`s): event delivery (the debounced `processPendingChange`
followed by the `processPendingChanges` dequeue loop, whose calls to
`processFileChange` run synchronously up to the first `await`,
incrementing `activeEmbeddings`), completion of an in-flight embedding
(the `finally` block: decrement, then dequeue more if any pending), and
a bulk-scan's direct call `await this.processFileChange(...)` inside
`scanAndEmbedDirectory`, which increments `activeEmbeddings` without
consulting the bound.  Ignore-filtered or unwatched paths produce no
step at all. -/

/-- The `pendingChanges` map, in insertion order. -/
abbrev PendingMap := List (String × FileChangeType)

/-- `this.pendingChanges.set(filePath, type)`: JS `Map.set` — overwrite
in place when the key exists, append otherwise. -/
def pendingSet : PendingMap → String → FileChangeType → PendingMap
  | [], p, t => [(p, t)]
  | e :: rest, p, t => if e.1 = p then (p, t) :: rest else e :: pendingSet rest p t

/-- Pipeline state: pending map plus `activeEmbeddings`. -/
structure PipeState where
  pending : PendingMap
  active : Nat
deriving DecidableEq, Repr

/-- The for-loop of `processPendingChanges`: walk the snapshot of
pending entries while `activeEmbeddings < maxConcurrentEmbeddings`,
removing each dequeued entry and starting `processFileChange`, whose
synchronous prefix increments `activeEmbeddings`. -/
def dequeueLoop (maxConc : Nat) : PendingMap → Nat → PendingMap × Nat
  | [], a => ([], a)
  | e :: rest, a =>
      if a < maxConc then dequeueLoop maxConc rest (a + 1)
      else (e :: rest, a)

/-- `processPendingChanges()`: early return at capacity, else the
dequeue loop. -/
def processPendingChanges (maxConc : Nat) (s : PipeState) : PipeState :=
  if maxConc ≤ s.active then s
  else
    let r := dequeueLoop maxConc s.pending s.active
    ⟨r.1, r.2⟩

/-- Atomic transitions of the pipeline.  `scansRunning` is true when a
`scanAndEmbedDirectory` walk may interleave. -/
inductive PipeStep (maxConc : Nat) (scansRunning : Bool) : PipeState → PipeState → Prop where
  | deliver (s : PipeState) (p : String) (t : FileChangeType) :
      PipeStep maxConc scansRunning s
        (processPendingChanges maxConc ⟨pendingSet s.pending p t, s.active⟩)
  | complete (s : PipeState) (h : 0 < s.active) :
      PipeStep maxConc scansRunning s
        (if s.pending.isEmpty then ⟨s.pending, s.active - 1⟩
         else processPendingChanges maxConc ⟨s.pending, s.active - 1⟩)
  | scanFile (s : PipeState) (h : scansRunning = true) :
      PipeStep maxConc scansRunning s ⟨s.pending, s.active + 1⟩

/-- C4 counterexample: with the default bound of 1, a queued change in
flight (`activeEmbeddings = 1`) interleaved with a directory bulk scan
reaching one file puts the pipeline in a reachable state with
`activeEmbeddings = 2 > 1`: `scanAndEmbedDirectory` calls
`processFileChange` without checking the bound. -/
theorem concurrency_bound_counterexample :
    Relation.ReflTransGen (PipeStep 1 true) ⟨[], 0⟩ ⟨[], 2⟩ ∧ 1 < 2 := by
  constructor
  · have h1 : PipeStep 1 true ⟨[], 0⟩ ⟨[], 1⟩ := by
      have := @PipeStep.deliver 1 true ⟨[], 0⟩ "/w/a.ts" FileChangeType.added
      have he : processPendingChanges 1 ⟨pendingSet [] "/w/a.ts" .added, 0⟩ =
          (⟨[], 1⟩ : PipeState) := by decide
      rwa [he] at this
    have h2 : PipeStep 1 true ⟨[], 1⟩ ⟨[], 2⟩ :=
      PipeStep.scanFile ⟨[], 1⟩ rfl
    exact Relation.ReflTransGen.head h1 (Relation.ReflTransGen.single h2)
  · omega

theorem dequeueLoop_bound (maxConc : Nat) (l : PendingMap) (a : Nat) (h : a ≤ maxConc) :
    (dequeueLoop maxConc l a).2 ≤ maxConc := by
  induction l generalizing a with
  | nil => simpa [dequeueLoop] using h
  | cons e rest ih =>
    rw [dequeueLoop]
    by_cases hc : a < maxConc
    · simp only [hc, if_true]
      exact ih (a + 1) hc
    · simp only [hc, if_false]
      exact h

theorem processPendingChanges_bound (maxConc : Nat) (s : PipeState)
    (h : s.active ≤ maxConc) :
    (processPendingChanges maxConc s).active ≤ maxConc := by
  rw [processPendingChanges]
  by_cases hc : maxConc ≤ s.active
  · simp only [hc, if_true]
    exact h
  · simp only [hc, if_false]
    exact dequeueLoop_bound _ _ _ h

/-- C4 amended: the concurrency bound holds in every state reachable
through queued change processing alone (event delivery and embedding
completion, with no bulk scan interleaved): `activeEmbeddings` never
exceeds `maxConcurrentEmbeddings`.  Directory bulk scans bypass the
bound check, so the process-wide claim fails (see the counterexample). -/
theorem concurrency_bound_queue_only (maxConc : Nat) (s : PipeState)
    (h : Relation.ReflTransGen (PipeStep maxConc false) ⟨[], 0⟩ s) :
    s.active ≤ maxConc := by
  induction h with
  | refl => simp
  | @tail b c hsteps hstep ih =>
    cases hstep with
    | deliver p t =>
      exact processPendingChanges_bound _ _ ih
    | complete hb =>
      by_cases he : b.pending.isEmpty
      · simp only [he, if_true]
        omega
      · simp only [he, Bool.false_eq_true, if_false]
        exact processPendingChanges_bound _ _ (by simp; omega)
    | scanFile hscan =>
      exact absurd hscan (by simp)

/-- C4 witness: the amended bound applied to the state reached by
delivering one change with the default bound of 1. -/
theorem concurrency_bound_queue_only_witness :
    Relation.ReflTransGen (PipeStep 1 false) ⟨[], 0⟩ ⟨[], 1⟩ ∧
    (⟨[], 1⟩ : PipeState).active ≤ 1 := by
  have h1 : PipeStep 1 false ⟨[], 0⟩ ⟨[], 1⟩ := by
    have := @PipeStep.deliver 1 false ⟨[], 0⟩ "/w/a.ts" FileChangeType.added
    have he : processPendingChanges 1 ⟨pendingSet [] "/w/a.ts" .added, 0⟩ =
        (⟨[], 1⟩ : PipeState) := by decide
    rwa [he] at this
  exact ⟨Relation.ReflTransGen.single h1,
         concurrency_bound_queue_only 1 ⟨[], 1⟩ (Relation.ReflTransGen.single h1)⟩

end SwatiLite

namespace SwatiLite

/-! ## FileWatcherService (`src/src/main/fileWatcher.ts`)

State: `watchers` is the set of directories with a live chokidar
watcher (the keys of `this.watchers`), `subscribers` the
directory → subscriber-id-set map (`this.subscribers`), both in
insertion order.  `path.normalize` is the identity on the
already-normalized paths used here.  Notably, `watchDirectory`
(lines 381-411) creates the OS watcher but never writes to
`this.subscribers`. -/

/-- The two maps of `FileWatcherService`. -/
structure WatcherState where
  watchers : List String
  subscribers : List (String × List String)
deriving DecidableEq, Repr

/-- Fresh service state: both maps empty. -/
def initWatcher : WatcherState := ⟨[], []⟩

/-- `watchDirectory(dirPath, subscriberId)`: create a chokidar watcher
unless one exists, return true.  The subscriber id is accepted but never
recorded anywhere. -/
def watchDirectory (s : WatcherState) (dirPath _subscriberId : String) :
    WatcherState × Bool :=
  if s.watchers.contains dirPath then (s, true)
  else ({ s with watchers := s.watchers ++ [dirPath] }, true)

/-- `this.subscribers.get(dirPath)` preceded by the `has` check. -/
def subsFind (subs : List (String × List String)) (d : String) :
    Option (String × List String) :=
  subs.find? (fun e => e.1 == d)

/-- `unwatchDirectory(dirPath, subscriberId)` (lines 413-443): when a
subscriber entry exists, drop the id; when the remaining set is empty,
delete the entry and close the watcher.  With no entry, nothing
happens and true is still returned. -/
def unwatchDirectory (s : WatcherState) (dirPath subscriberId : String) :
    WatcherState × Bool :=
  match subsFind s.subscribers dirPath with
  | none => (s, true)
  | some entry =>
      let remaining := entry.2.filter (fun x => x != subscriberId)
      if remaining.isEmpty then
        (⟨s.watchers.filter (fun d => d != dirPath),
          s.subscribers.filter (fun e => e.1 != dirPath)⟩, true)
      else
        ({ s with subscribers :=
            s.subscribers.map (fun e => if e.1 = dirPath then (e.1, remaining) else e) }, true)

/-- A delivery made by `sendChangeEvent`: the internal
`this.emit("file:change", ...)` broadcast, or a `webContents.send` to
one UI subscriber. -/
inductive BusEvent where
  | internal (c : FileChange)
  | ui (subscriberId : String) (c : FileChange)
deriving DecidableEq, Repr

/-- `sendChangeEvent(dirPath, filePath, changeType)` (lines 453-481):
`if (!this.subscribers.has(dirPath)) return;` — then the internal emit,
then one UI send per subscriber id (all windows taken as live). -/
def sendChangeEvent (s : WatcherState) (dirPath filePath : String)
    (changeType : FileChangeType) : List BusEvent :=
  match subsFind s.subscribers dirPath with
  | none => []
  | some entry =>
      BusEvent.internal ⟨changeType, filePath⟩ ::
        entry.2.map (fun sid => BusEvent.ui sid ⟨changeType, filePath⟩)

/-! ## Claim C5 — internal-bus broadcast -/

/-- C5 counterexample: `/d` is a watched directory (OS event source),
yet because it has no entry in the subscribers map, an `add` event for
`/d/a.ts` produces no delivery at all — in particular no internal-bus
broadcast — contradicting "broadcasts ... even when no per-directory UI
subscriber is registered". -/
theorem internal_broadcast_counterexample :
    (watchDirectory initWatcher "/d" "w1").1.watchers = ["/d"] ∧
    sendChangeEvent (watchDirectory initWatcher "/d" "w1").1 "/d" "/d/a.ts" .added = [] := by
  decide

/-- C5 amended: the internal-bus broadcast happens exactly when the
event's directory has an entry in the subscribers map; for a directory
without one, `sendChangeEvent` returns before the emit and internal
services see nothing. -/
theorem internal_broadcast_iff_subscribed (s : WatcherState)
    (dirPath filePath : String) (changeType : FileChangeType) :
    BusEvent.internal ⟨changeType, filePath⟩ ∈ sendChangeEvent s dirPath filePath changeType ↔
      (subsFind s.subscribers dirPath).isSome := by
  rw [sendChangeEvent]
  cases h : subsFind s.subscribers dirPath with
  | none => simp
  | some entry => simp

/-! ## Claim C6 — watch-subscription invariant -/

/-- C6: evaluating the code at the failing input.  `watchDirectory`
never records the subscriber id — the subscribers map stays empty — and
after the sole subscriber calls `unwatchDirectory`, the OS watcher for
`/d` is still alive: teardown-on-empty is dead code because no entry is
ever created. -/
theorem watch_never_records_subscriber :
    (watchDirectory initWatcher "/d" "w1").1.subscribers = [] ∧
    (unwatchDirectory (watchDirectory initWatcher "/d" "w1").1 "/d" "w1").1.watchers = ["/d"] := by
  decide

end SwatiLite

namespace SwatiLite

/-! ## ShadowWorkspaceService registry (`src/src/main/shadowWorkspace.ts`) -/

/-- `ShadowWorkspaceInfo` from `shadowWorkspace.ts`. -/
structure ShadowWorkspaceInfo where
  originalPath : String
  shadowPath : String
deriving DecidableEq, Repr

/-- The `shadowWorkspaces` map (originalPath → info), insertion order. -/
abbrev WorkspaceMap := List (String × ShadowWorkspaceInfo)

/-- Model of JS `String.prototype.startsWith`. -/
def strStartsWith (s pre : String) : Bool :=
  pre.data.isPrefixOf s.data

/-- `findWorkspaceForPath(filePath)` (lines 368-382): exact-key check
first; otherwise iterate the map entries in insertion order and return
the first whose original path is a prefix of `filePath`. -/
def findWorkspaceForPath (ws : WorkspaceMap) (filePath : String) :
    Option ShadowWorkspaceInfo :=
  match ws.find? (fun e => e.1 == filePath) with
  | some e => some e.2
  | none =>
      match ws.find? (fun e => strStartsWith filePath e.1) with
      | some e => some e.2
      | none => none

theorem find?_first_of_prefix {α : Type} (pred : α → Bool) (l1 l2 : List α) (e : α)
    (h1 : ∀ x ∈ l1, pred x = false) (he : pred e = true) :
    (l1 ++ e :: l2).find? pred = some e := by
  induction l1 with
  | nil => simp [List.find?, he]
  | cons a t ih =>
    have ha : pred a = false := h1 a (List.mem_cons_self a t)
    simp only [List.cons_append, List.find?, ha]
    exact ih (fun x hx => h1 x (List.mem_cons_of_mem a hx))

/-! ## Claim C9 — reverse workspace lookup -/

/-- C9 counterexample: with `/proj` registered before `/proj/sub`, the
lookup for `/proj/sub/a.ts` returns the `/proj` workspace even though
`/proj/sub` is a strictly longer registered prefix of the path — the
longest matching prefix does NOT win. -/
theorem lookup_first_prefix_counterexample :
    findWorkspaceForPath
        [("/proj", ⟨"/proj", "/sh1"⟩), ("/proj/sub", ⟨"/proj/sub", "/sh2"⟩)]
        "/proj/sub/a.ts" = some ⟨"/proj", "/sh1"⟩ ∧
    strStartsWith "/proj/sub/a.ts" "/proj/sub" = true ∧
    ("/proj" : String).length < ("/proj/sub" : String).length := by
  decide

/-- `l.isPrefixOf l` always holds (every list is a prefix of itself). -/
theorem strStartsWith_refl (s : String) : strStartsWith s s = true := by
  rw [strStartsWith]
  induction s.data with
  | nil => rfl
  | cons c t ih => simp [List.isPrefixOf, ih]

/-- C9 amended: the lookup resolves a path that is itself a registered
key to that entry; otherwise the FIRST registered original path, in
insertion order, that is a prefix of the file path wins — not the
longest one; and when no registered path is a prefix the lookup
returns null. -/
theorem lookup_resolution_branches (ws : WorkspaceMap) (p : String) :
    (∀ pre e post, ws = pre ++ e :: post → (∀ f ∈ pre, f.1 ≠ p) → e.1 = p →
        findWorkspaceForPath ws p = some e.2) ∧
    (∀ pre e post, ws = pre ++ e :: post → (∀ f ∈ ws, f.1 ≠ p) →
        (∀ f ∈ pre, strStartsWith p f.1 = false) → strStartsWith p e.1 = true →
        findWorkspaceForPath ws p = some e.2) ∧
    ((∀ f ∈ ws, strStartsWith p f.1 = false) → findWorkspaceForPath ws p = none) := by
  refine ⟨?_, ?_, ?_⟩
  · -- exact-key branch: the first find? hits the entry whose key is p
    rintro pre e post rfl hpre he
    rw [findWorkspaceForPath,
        find?_first_of_prefix (fun f => f.1 == p) pre post e
          (fun x hx => by simpa using hpre x hx) (by simpa using he)]
  · -- no exact key anywhere: the first prefix match in insertion order wins
    rintro pre e post rfl hex hpre he
    rw [findWorkspaceForPath]
    have h1 : (pre ++ e :: post).find? (fun f => f.1 == p) = none := by
      rw [List.find?_eq_none]
      intro x hx
      simpa using hex x hx
    rw [h1, find?_first_of_prefix _ pre post e hpre he]
  · -- no registered path is a prefix: both find? calls miss
    intro h
    rw [findWorkspaceForPath]
    have h1 : ws.find? (fun f => f.1 == p) = none := by
      rw [List.find?_eq_none]
      intro x hx hcon
      have hxp : x.1 = p := by simpa using hcon
      have hfalse := h x hx
      rw [hxp, strStartsWith_refl] at hfalse
      simp at hfalse
    have h2 : ws.find? (fun f => strStartsWith p f.1) = none := by
      rw [List.find?_eq_none]
      intro x hx
      simp [h x hx]
    rw [h1, h2]

/-- C9 witness: on the two-entry registry, an exact key resolves to its
own entry, `/proj/sub/a.ts` resolves to the first-registered prefix
`/proj`, and `/other/a.ts` resolves to null. -/
theorem lookup_resolution_branches_witness :
    findWorkspaceForPath
        [("/proj", ⟨"/proj", "/sh1"⟩), ("/proj/sub", ⟨"/proj/sub", "/sh2"⟩)]
        "/proj/sub" = some ⟨"/proj/sub", "/sh2"⟩ ∧
    findWorkspaceForPath
        [("/proj", ⟨"/proj", "/sh1"⟩), ("/proj/sub", ⟨"/proj/sub", "/sh2"⟩)]
        "/proj/sub/a.ts" = some ⟨"/proj", "/sh1"⟩ ∧
    findWorkspaceForPath
        [("/proj", ⟨"/proj", "/sh1"⟩), ("/proj/sub", ⟨"/proj/sub", "/sh2"⟩)]
        "/other/a.ts" = none :=
  ⟨(lookup_resolution_branches
        [("/proj", ⟨"/proj", "/sh1"⟩), ("/proj/sub", ⟨"/proj/sub", "/sh2"⟩)]
        "/proj/sub").1
      [("/proj", ⟨"/proj", "/sh1"⟩)] ("/proj/sub", ⟨"/proj/sub", "/sh2"⟩) []
      rfl (by decide) rfl,
   (lookup_resolution_branches
        [("/proj", ⟨"/proj", "/sh1"⟩), ("/proj/sub", ⟨"/proj/sub", "/sh2"⟩)]
        "/proj/sub/a.ts").2.1
      [] ("/proj", ⟨"/proj", "/sh1"⟩) [("/proj/sub", ⟨"/proj/sub", "/sh2"⟩)]
      rfl (by decide) (by decide) (by decide),
   (lookup_resolution_branches
        [("/proj", ⟨"/proj", "/sh1"⟩), ("/proj/sub", ⟨"/proj/sub", "/sh2"⟩)]
        "/other/a.ts").2.2 (by decide)⟩

end SwatiLite

namespace SwatiLite

/-! ## Shadow-file write tools (`shadowFileTools` in
`src/src/main/tools/langchainTools.ts`)

The shadow tree is a list of path/content pairs.
`shadowWorkspaceService.getShadowPath` (whose implementation file only
appears through its callers here) is passed in as an arbitrary function
`getShadowPath : String → Option String`, so the theorems hold for every
possible path-translation behaviour. -/

/-- The shadow tree: shadow path → file content. -/
abbrev ShadowFS := List (String × String)

/-- `fs.existsSync` on the shadow tree. -/
def fsExistsSync (fs : ShadowFS) (p : String) : Bool :=
  (fs.find? (fun e => e.1 == p)).isSome

/-- `fs.readFileSync(p, "utf-8")` on the shadow tree. -/
def fsReadFileSync (fs : ShadowFS) (p : String) : String :=
  ((fs.find? (fun e => e.1 == p)).map (·.2)).getD ""

/-- `fs.writeFileSync(p, c, "utf-8")` on the shadow tree. -/
def fsWriteFileSync (fs : ShadowFS) (p c : String) : ShadowFS :=
  if fsExistsSync fs p then fs.map (fun e => if e.1 == p then (e.1, c) else e)
  else fs ++ [(p, c)]

/-- The result object of the shadow-file tools. -/
structure ToolResult where
  success : Bool
  shadowPath : Option String
  message : String
deriving DecidableEq, Repr

/-- `writeToShadowFile(originalFilePath, content)`: failure result when
no shadow path resolves or when the shadow file does not yet exist —
in both cases without touching the shadow tree. -/
def writeToShadowFile (getShadowPath : String → Option String) (fs : ShadowFS)
    (originalFilePath content : String) : ShadowFS × ToolResult :=
  match getShadowPath originalFilePath with
  | none =>
      (fs, ⟨false, none, "No shadow workspace found for file: " ++ originalFilePath⟩)
  | some shadowPath =>
      if !(fsExistsSync fs shadowPath) then
        (fs, ⟨false, some shadowPath,
              "Shadow file does not exist and won't be created: " ++ shadowPath⟩)
      else
        (fsWriteFileSync fs shadowPath content,
         ⟨true, some shadowPath, "Successfully wrote to shadow file: " ++ shadowPath⟩)

/-- `appendToShadowFile(originalFilePath, contentToAppend)`: same guard
structure; on success reads the existing content and writes the
concatenation. -/
def appendToShadowFile (getShadowPath : String → Option String) (fs : ShadowFS)
    (originalFilePath contentToAppend : String) : ShadowFS × ToolResult :=
  match getShadowPath originalFilePath with
  | none =>
      (fs, ⟨false, none, "No shadow workspace found for file: " ++ originalFilePath⟩)
  | some shadowPath =>
      if !(fsExistsSync fs shadowPath) then
        (fs, ⟨false, some shadowPath,
              "Shadow file does not exist and won't be created: " ++ shadowPath⟩)
      else
        (fsWriteFileSync fs shadowPath (fsReadFileSync fs shadowPath ++ contentToAppend),
         ⟨true, some shadowPath,
          "Successfully appended to shadow file: " ++ shadowPath⟩)

/-! ## Claim C8 — shadow writes never create files -/

/-- C8: for any path whose shadow file does not exist (no workspace
resolves, or the resolved shadow path is absent from the tree), both
`writeToShadowFile` and `appendToShadowFile` return a failure result
carrying one of the two descriptive messages, and leave the shadow tree
unchanged — the shadow file is never created. -/
theorem shadow_write_requires_existing_file
    (getShadowPath : String → Option String) (fs : ShadowFS) (p content text : String)
    (h : ∀ sp, getShadowPath p = some sp → fsExistsSync fs sp = false) :
    ((writeToShadowFile getShadowPath fs p content).1 = fs ∧
     (writeToShadowFile getShadowPath fs p content).2.success = false ∧
     ((writeToShadowFile getShadowPath fs p content).2.message =
        "No shadow workspace found for file: " ++ p ∨
      ∃ sp, getShadowPath p = some sp ∧
        (writeToShadowFile getShadowPath fs p content).2.message =
          "Shadow file does not exist and won't be created: " ++ sp)) ∧
    ((appendToShadowFile getShadowPath fs p text).1 = fs ∧
     (appendToShadowFile getShadowPath fs p text).2.success = false ∧
     ((appendToShadowFile getShadowPath fs p text).2.message =
        "No shadow workspace found for file: " ++ p ∨
      ∃ sp, getShadowPath p = some sp ∧
        (appendToShadowFile getShadowPath fs p text).2.message =
          "Shadow file does not exist and won't be created: " ++ sp)) := by
  cases hg : getShadowPath p with
  | none =>
      refine ⟨⟨?_, ?_, Or.inl ?_⟩, ⟨?_, ?_, Or.inl ?_⟩⟩ <;>
        simp [writeToShadowFile, appendToShadowFile, hg]
  | some sp =>
      have hex : fsExistsSync fs sp = false := h sp hg
      refine ⟨⟨?_, ?_, Or.inr ⟨sp, rfl, ?_⟩⟩, ⟨?_, ?_, Or.inr ⟨sp, rfl, ?_⟩⟩⟩ <;>
        simp [writeToShadowFile, appendToShadowFile, hg, hex]

/-- C8 witness: a workspace that resolves `/proj/a.ts` to
`/shadow/a.ts` over an empty shadow tree — both tools fail and the tree
stays empty. -/
theorem shadow_write_requires_existing_file_witness :
    (∀ sp, (fun _ => (some "/shadow/a.ts" : Option String)) "/proj/a.ts" = some sp →
        fsExistsSync [] sp = false) ∧
    (((writeToShadowFile (fun _ => some "/shadow/a.ts") [] "/proj/a.ts" "new").1 = [] ∧
      (writeToShadowFile (fun _ => some "/shadow/a.ts") [] "/proj/a.ts" "new").2.success = false ∧
      ((writeToShadowFile (fun _ => some "/shadow/a.ts") [] "/proj/a.ts" "new").2.message =
         "No shadow workspace found for file: " ++ "/proj/a.ts" ∨
       ∃ sp, (fun _ => (some "/shadow/a.ts" : Option String)) "/proj/a.ts" = some sp ∧
         (writeToShadowFile (fun _ => some "/shadow/a.ts") [] "/proj/a.ts" "new").2.message =
           "Shadow file does not exist and won't be created: " ++ sp)) ∧
     ((appendToShadowFile (fun _ => some "/shadow/a.ts") [] "/proj/a.ts" "tail").1 = [] ∧
      (appendToShadowFile (fun _ => some "/shadow/a.ts") [] "/proj/a.ts" "tail").2.success = false ∧
      ((appendToShadowFile (fun _ => some "/shadow/a.ts") [] "/proj/a.ts" "tail").2.message =
         "No shadow workspace found for file: " ++ "/proj/a.ts" ∨
       ∃ sp, (fun _ => (some "/shadow/a.ts" : Option String)) "/proj/a.ts" = some sp ∧
         (appendToShadowFile (fun _ => some "/shadow/a.ts") [] "/proj/a.ts" "tail").2.message =
           "Shadow file does not exist and won't be created: " ++ sp))) :=
  ⟨fun sp h => by simp at h; rw [← h]; rfl,
   shadow_write_requires_existing_file (fun _ => some "/shadow/a.ts") [] "/proj/a.ts"
     "new" "tail" (fun sp h => by simp at h; rw [← h]; rfl)⟩

end SwatiLite
